import Mathlib

/-!
Verification development for the core of `laspec` (`laspec/mrs.py`).

The iterative bad-pixel rejector `debad` and the array-handling part of
`MrsSpec.__init__` are embedded shallowly:

* numpy float arrays become `List ℝ` (exact real arithmetic idealizes IEEE
  doubles);
* `scipy.signal.medfilt` becomes `medfilt` (zero-padded centered windows,
  median = middle element of the sorted window);
* `scipy.signal.windows.gaussian` becomes `gaussianWin`;
* `np.convolve(·, ·, "same")` becomes `convSame` (full convolution with
  implicit zero padding, sliced to the centered `max` length);
* `np.interp` becomes `interp` (piecewise-linear, clamped at both ends);
  like `np.interp`, it fails with `ValueError("array of sample points is
  empty")` when called with no sample points, mirrored as `Except.error`,
  and `debadLoop` aborts there exactly as the program does;
* the `while True` loop of `debad` becomes the structurally recursive
  `debadLoop`; the remaining fuel starts at `maxiter - 1` because the source
  increments `countiter` before comparing `countiter >= maxiter`, so the
  body always runs at least once;
* `raise RuntimeError("Too many bad pixels!")` becomes the
  `Except.error "Too many bad pixels!"` branch; the float comparison
  `np.sum(indclip) > 0.5 * npix` is rendered exactly as
  `2 * countTrue indclip > npix` over ℕ;
* numpy boolean masks become `List Bool`; boolean masking `a[~m]` becomes
  `selectNot a m`.

Shape mismatches which would raise broadcasting errors in numpy (e.g.
`npix < 5`) are totalized by `List.zipWith` truncation; theorems that depend
on shapes carry the corresponding length hypotheses.
-/

namespace Laspec

/-- Number of `true` entries of a boolean mask (`np.sum` of a bool array). -/
def countTrue (l : List Bool) : ℕ := l.count true

/-- Elementwise logical or of two masks (`indclip |= indout`). -/
def orMask (a b : List Bool) : List Bool := List.zipWith (· || ·) a b

/-- Boolean-mask selection `a[~m]`: keep entries whose mask bit is `false`. -/
def selectNot {α : Type} (a : List α) (m : List Bool) : List α :=
  ((a.zip m).filter (fun q => !q.2)).map Prod.fst

/-- Signal value at a possibly negative index, with implicit zero padding. -/
def getZ (a : List ℝ) (t : ℤ) : ℝ :=
  if 0 ≤ t then a.getD t.toNat 0 else 0

/-- Median of a list: middle element of the sorted list (as used by
`scipy.signal.medfilt` on odd windows). -/
noncomputable def median (l : List ℝ) : ℝ :=
  (l.insertionSort (· ≤ ·)).getD ((l.length - 1) / 2) 0

/-- `scipy.signal.medfilt a k`: median over the zero-padded window of width
`k` centered at each pixel. -/
noncomputable def medfilt (a : List ℝ) (k : ℕ) : List ℝ :=
  (List.range a.length).map (fun (i : ℕ) =>
    median ((List.range k).map (fun (j : ℕ) =>
      getZ a (Int.ofNat i + Int.ofNat j - ((k : ℤ) - 1) / 2))))

/-- Entry `j` of the full (zero-padded) convolution of `a` and `v`. -/
def fullConvAt (a v : List ℝ) (j : ℕ) : ℝ :=
  ∑ m ∈ Finset.range (j + 1), a.getD m 0 * v.getD (j - m) 0

/-- `np.convolve(a, v, "same")`: the centered `max` -length slice of the full
zero-padded convolution. -/
def convSame (a v : List ℝ) : List ℝ :=
  (List.range (max a.length v.length)).map
    (fun i => fullConvAt a v (i + (min a.length v.length - 1) / 2))

/-- `scipy.signal.windows.gaussian M std`: `exp (-(n - (M-1)/2)^2 / (2 std^2))`
for `n = 0, …, M-1`. -/
noncomputable def gaussianWin (M : ℕ) (std : ℝ) : List ℝ :=
  (List.range M).map (fun (n : ℕ) =>
    Real.exp (-(Nat.cast n - ((M : ℝ) - 1) / 2) ^ 2 / (2 * std ^ 2)))

/-- Normalization of a kernel to unit sum (`gk /= np.sum(gk)`). -/
noncomputable def normalizeK (l : List ℝ) : List ℝ := l.map (fun x => x / l.sum)

/-- The unit-sum Gaussian kernel `gk` of `debad`. -/
noncomputable def gaussNorm (M : ℕ) (std : ℝ) : List ℝ := normalizeK (gaussianWin M std)

/-- Smoothed trend of one `debad` round: median filter of width `mfarg`
followed by convolution with the fixed unit-sum Gaussian kernel of length 5
and standard deviation 0.5 (`fluxmf`). -/
noncomputable def trendOf (mfarg : ℕ) (flux : List ℝ) : List ℝ :=
  convSame (medfilt flux mfarg) (gaussNorm 5 (1 / 2))

/-- Residuals of one `debad` round (`fluxres = fluxnorm - fluxmf`). -/
noncomputable def resOf (mfarg : ℕ) (flux : List ℝ) : List ℝ :=
  List.zipWith (· - ·) flux (trendOf mfarg flux)

/-- Per-pixel noise scale of one `debad` round: absolute residuals convolved
with the caller-configurable unit-sum Gaussian kernel (`fluxsigma`). -/
noncomputable def sigmaOf (gfarg : ℕ × ℝ) (mfarg : ℕ) (flux : List ℝ) : List ℝ :=
  convSame ((resOf mfarg flux).map (fun x => |x|)) (gaussNorm gfarg.1 gfarg.2)

/-- Outlier flags of one `debad` round (`indout`):
`logical_or(fluxres > fluxsigma * nsigma[0], fluxres < -fluxsigma * nsigma[1])`. -/
noncomputable def flagsOf (nsigma : ℝ × ℝ) (mfarg : ℕ) (gfarg : ℕ × ℝ)
    (flux : List ℝ) : List Bool :=
  List.zipWith (fun r s => decide (r > s * nsigma.1) || decide (r < -(s * nsigma.2)))
    (resOf mfarg flux) (sigmaOf gfarg mfarg flux)

/-- Mask dilation: convolve the 0/1 mask with a boxcar of width `maskconv`
and threshold at `> 0`. -/
noncomputable def dilate (maskconv : ℕ) (m : List Bool) : List Bool :=
  (convSame (m.map (fun b => if b then (1 : ℝ) else 0)) (List.replicate maskconv 1)).map
    (fun x => decide (x > 0))

/-- Tail of `np.interp`: walk the anchor pairs carrying the previous anchor;
inside a panel interpolate linearly, past the last anchor clamp. -/
noncomputable def interpGo (t : ℝ) : ℝ × ℝ → List (ℝ × ℝ) → ℝ
  | p, [] => p.2
  | p, q :: ps =>
      if t ≤ q.1 then p.2 + (q.2 - p.2) * (t - p.1) / (q.1 - p.1)
      else interpGo t q ps

/-- `np.interp t xp fp` for increasing `xp` (with `xp` and `fp` of equal
length, as in every use here): clamped piecewise-linear interpolation, or
`np.interp`'s `ValueError` when the sample-point array is empty. -/
noncomputable def interp (t : ℝ) (xp fp : List ℝ) : Except String ℝ :=
  match xp.zip fp with
  | [] => Except.error "array of sample points is empty"
  | p :: ps => Except.ok (if t ≤ p.1 then p.2 else interpGo t p ps)

/-- Replacement step of `debad`:
`fluxnorm = np.interp(wave, wave[~indout], fluxnorm[~indout])` with `indout`
the dilated mask `d`.  The single vectorized `np.interp` call validates its
sample points once: it raises `ValueError("array of sample points is
empty")` when the dilated mask flags every pixel, and otherwise evaluates
the interpolant at every entry of `wave`. -/
noncomputable def interpMasked (wave flux : List ℝ) (d : List Bool) :
    Except String (List ℝ) :=
  match (selectNot wave d).zip (selectNot flux d) with
  | [] => Except.error "array of sample points is empty"
  | p :: ps => Except.ok (wave.map (fun t => if t ≤ p.1 then p.2 else interpGo t p ps))

/-- One continuing round of the `debad` loop acting on the pair
(current flux, cumulative clip mask): flag outliers, accumulate them by
logical or, dilate the round's flags and re-interpolate the flux.  When the
replacement's `np.interp` call fails (empty sample points) the loop aborts —
`debadLoop` matches on `interpMasked` itself — and this total function keeps
the flux unchanged only so that the round-indexed states `fluxAt` and
`maskAfter` stay total for stating invariants; `debadLoop` never consumes
that fallback. -/
noncomputable def debadStep (wave : List ℝ) (nsigma : ℝ × ℝ) (mfarg : ℕ)
    (gfarg : ℕ × ℝ) (maskconv : ℕ) (st : List ℝ × List Bool) :
    List ℝ × List Bool :=
  let indout := flagsOf nsigma mfarg gfarg st.1
  (match interpMasked wave st.1 (dilate maskconv indout) with
   | Except.ok fluxnew => fluxnew
   | Except.error _ => st.1,
   orMask st.2 indout)

/-- The `while True` loop of `debad`. `g` is the remaining fuel after the
current round (`maxiter - countiter` in source terms); the body always runs
once more. The guard is checked first, then the two exit conditions of
`np.sum(indout) == 0 or countiter >= maxiter`. -/
noncomputable def debadLoop (wave : List ℝ) (nsigma : ℝ × ℝ) (mfarg : ℕ)
    (gfarg : ℕ × ℝ) (maskconv npix : ℕ) :
    ℕ → List ℝ × List Bool → Except String (List ℝ)
  | g, st =>
    let indout := flagsOf nsigma mfarg gfarg st.1
    let indclip := orMask st.2 indout
    if 2 * countTrue indclip > npix then Except.error "Too many bad pixels!"
    else if countTrue indout = 0 then Except.ok st.1
    else
      match g with
      | 0 => Except.ok st.1
      | g' + 1 =>
          match interpMasked wave st.1 (dilate maskconv indout) with
          | Except.error e => Except.error e
          | Except.ok fluxnew =>
              debadLoop wave nsigma mfarg gfarg maskconv npix g'
                (fluxnew, orMask st.2 indout)

/-- `debad(wave, fluxnorm, nsigma, mfarg, gfarg, maskconv, maxiter)`
(source defaults: `nsigma=(4, 8)`, `mfarg=21`, `gfarg=(51, 9)`, `maskconv=7`,
`maxiter=3`). -/
noncomputable def debad (wave fluxnorm : List ℝ) (nsigma : ℝ × ℝ) (mfarg : ℕ)
    (gfarg : ℕ × ℝ) (maskconv maxiter : ℕ) : Except String (List ℝ) :=
  debadLoop wave nsigma mfarg gfarg maskconv fluxnorm.length (maxiter - 1)
    (fluxnorm, List.replicate fluxnorm.length false)

/-- Current flux at entry of round `k + 1` of `debad` (iterating the loop
body `k` times from the input flux). -/
noncomputable def fluxAt (wave : List ℝ) (nsigma : ℝ × ℝ) (mfarg : ℕ)
    (gfarg : ℕ × ℝ) (maskconv : ℕ) (flux0 : List ℝ) (k : ℕ) : List ℝ :=
  ((debadStep wave nsigma mfarg gfarg maskconv)^[k]
    (flux0, List.replicate flux0.length false)).1

/-- Cumulative clip mask of `debad` after `k` rounds have accumulated their
flags. -/
noncomputable def maskAfter (wave : List ℝ) (nsigma : ℝ × ℝ) (mfarg : ℕ)
    (gfarg : ℕ × ℝ) (maskconv : ℕ) (flux0 : List ℝ) (k : ℕ) : List Bool :=
  ((debadStep wave nsigma mfarg gfarg maskconv)^[k]
    (flux0, List.replicate flux0.length false)).2

/-- The clipping test exactly as the specification words it: residual above
`noise_scale * nsigma_hi` or below `-noise_scale * nsigma_lo`, with
`nsigma = (lo, hi)`. -/
def specClipPred (nsigma : ℝ × ℝ) (r s : ℝ) : Prop :=
  r > s * nsigma.2 ∨ r < -(s * nsigma.1)

/-- Concrete 5-pixel wavelength grid used in concrete instances. -/
noncomputable def wave5 : List ℝ := [0, 1, 2, 3, 4]

/-- Concrete 5-pixel flux with a positive spike at pixel 0 and 3 and a
negative dip at pixel 1 and 4; its width-3 median filter is identically 0. -/
noncomputable def exflux : List ℝ := [1, -1, 0, 1, -1]

/-- Concrete 7-pixel wavelength grid for the empty-sample-points
counterexamples. -/
noncomputable def wave7 : List ℝ := [0, 1, 2, 3, 4, 5, 6]

/-- Concrete 7-pixel flux with a single unit spike at pixel 3: its width-3
median filter is identically 0, and the width-7 boxcar dilation of the
single resulting flag covers all 7 pixels. -/
noncomputable def flux7 : List ℝ := [0, 0, 0, 1, 0, 0, 0]

/-- An IEEE-754 double as seen by `MrsSpec.__init__`: a finite real value,
one of the two infinities, or NaN. -/
inductive FVal where
  | finite (x : ℝ)
  | pinf
  | ninf
  | nan

/-- `np.isfinite`. -/
def FVal.isfinite : FVal → Bool
  | .finite _ => true
  | _ => false

/-- IEEE-754 semantics of `x ** -0.5` on a double (C `pow(x, -0.5)`, which
numpy follows for float64): positive finite bases give the real power,
`pow(±0, -0.5) = +inf`, negative finite bases give NaN, `pow(±inf, -0.5) = +0`,
and NaN propagates. -/
noncomputable def powNegHalf : FVal → FVal
  | .finite x =>
      if 0 < x then .finite (x ^ (-(1 / 2) : ℝ))
      else if x = 0 then .pinf
      else .nan
  | .pinf => .finite 0
  | .ninf => .finite 0
  | .nan => .nan

/-- One entry of `flux_err`:
`np.where(np.isfinite(ivar ** -0.5), ivar ** -0.5, np.nan)`. -/
noncomputable def fluxErrEntry (iv : FVal) : FVal :=
  if (powNegHalf iv).isfinite then powNegHalf iv else .nan

/-- The array-handling state set up by `MrsSpec.__init__` (the external
normalization call and the metadata bag are outside the verified core).
numpy boolean masks are embedded as 0/1 integers (`False = 0`). -/
structure MrsSpec where
  wave : List ℝ
  flux : List ℝ
  ivar : List FVal
  mask : List ℤ
  npix_bad : ℕ
  flux_err : List FVal
  isempty : Bool

/-- `MrsSpec.__init__(wave, flux, ivar, mask)` (lines 178-200 of `mrs.py`):
missing wave/flux give a null spec; missing `ivar` defaults to
`np.ones_like(flux)`; missing `mask` defaults to `np.zeros_like(flux, bool)`
with `npix_bad = 0`, otherwise `npix_bad = np.sum(mask > 0)`; finally
`flux_err = np.where(np.isfinite(ivar**-0.5), ivar**-0.5, np.nan)`. -/
noncomputable def MrsSpec.init (wave flux : Option (List ℝ))
    (ivar : Option (List FVal)) (mask : Option (List ℤ)) : MrsSpec :=
  let wf : List ℝ × List ℝ × Bool :=
    match wave, flux with
    | some w, some f => (w, f, false)
    | _, _ => ([], [], true)
  let iv : List FVal :=
    match ivar with
    | none => List.replicate wf.2.1.length (FVal.finite 1)
    | some v => v
  let mnb : List ℤ × ℕ :=
    match mask with
    | none => (List.replicate wf.2.1.length 0, 0)
    | some m0 => (m0, m0.countP (fun v => decide (0 < v)))
  { wave := wf.1, flux := wf.2.1, ivar := iv, mask := mnb.1,
    npix_bad := mnb.2, flux_err := iv.map fluxErrEntry, isempty := wf.2.2 }

/-! Helper lemmas: lengths. -/

theorem getD_replicate_cases (n i : ℕ) (c d : ℝ) :
    (List.replicate n c).getD i d = if i < n then c else d := by
  rcases lt_or_le i n with h | h
  · rw [List.getD_eq_getElem _ _ (by simpa using h)]; simp [h]
  · rw [List.getD_eq_default _ _ (by simpa using h)]; simp [Nat.not_lt.2 h]

theorem gaussianWin_length (M : ℕ) (s : ℝ) : (gaussianWin M s).length = M := by
  rw [gaussianWin, List.length_map, List.length_range]

theorem gaussNorm_length (M : ℕ) (s : ℝ) : (gaussNorm M s).length = M := by
  simp [gaussNorm, normalizeK, gaussianWin_length]

theorem convSame_length (a v : List ℝ) :
    (convSame a v).length = max a.length v.length := by
  simp [convSame]

theorem medfilt_length (a : List ℝ) (k : ℕ) : (medfilt a k).length = a.length := by
  rw [medfilt, List.length_map, List.length_range]

theorem trendOf_length (mfarg : ℕ) (flux : List ℝ) :
    (trendOf mfarg flux).length = max flux.length 5 := by
  simp [trendOf, convSame_length, medfilt_length, gaussNorm_length]

theorem resOf_length (mfarg : ℕ) (flux : List ℝ) :
    (resOf mfarg flux).length = flux.length := by
  simp [resOf, trendOf_length]

theorem sigmaOf_length (gfarg : ℕ × ℝ) (mfarg : ℕ) (flux : List ℝ) :
    (sigmaOf gfarg mfarg flux).length = max flux.length gfarg.1 := by
  simp [sigmaOf, convSame_length, resOf_length, gaussNorm_length]

theorem flagsOf_length (nsigma : ℝ × ℝ) (mfarg : ℕ) (gfarg : ℕ × ℝ)
    (flux : List ℝ) : (flagsOf nsigma mfarg gfarg flux).length = flux.length := by
  simp [flagsOf, resOf_length, sigmaOf_length]

theorem dilate_length (maskconv : ℕ) (m : List Bool) :
    (dilate maskconv m).length = max m.length maskconv := by
  simp [dilate, convSame_length]

theorem interpMasked_ok_length (wave flux : List ℝ) (d : List Bool) (l : List ℝ)
    (h : interpMasked wave flux d = Except.ok l) : l.length = wave.length := by
  unfold interpMasked at h
  rcases hz : (selectNot wave d).zip (selectNot flux d) with - | ⟨p, ps⟩ <;>
    rw [hz] at h
  · simp at h
  · simp only [Except.ok.injEq] at h
    rw [← h, List.length_map]

theorem interpMasked_error_string (wave flux : List ℝ) (d : List Bool)
    (e : String) (h : interpMasked wave flux d = Except.error e) :
    e = "array of sample points is empty" := by
  unfold interpMasked at h
  rcases hz : (selectNot wave d).zip (selectNot flux d) with - | ⟨p, ps⟩ <;>
    rw [hz] at h
  · simp only [Except.error.injEq] at h
    exact h.symm
  · simp at h

theorem interpMasked_of_empty_anchors (wave flux : List ℝ) (d : List Bool)
    (h : selectNot wave d = []) :
    interpMasked wave flux d = Except.error "array of sample points is empty" := by
  unfold interpMasked
  rw [h]
  rfl

theorem orMask_length (a b : List Bool) :
    (orMask a b).length = min a.length b.length := by
  simp [orMask]

/-! Helper lemmas: kernels. -/

theorem gaussianWin_sum_pos (M : ℕ) (s : ℝ) (h : 1 ≤ M) :
    0 < (gaussianWin M s).sum := by
  apply List.sum_pos
  · intro x hx
    simp only [gaussianWin, List.mem_map] at hx
    obtain ⟨n, -, rfl⟩ := hx
    exact Real.exp_pos _
  · intro hnil
    have := gaussianWin_length M s
    rw [hnil] at this
    simp at this
    omega

theorem gaussNorm_sum (M : ℕ) (s : ℝ) (h : 1 ≤ M) : (gaussNorm M s).sum = 1 := by
  have hpos := gaussianWin_sum_pos M s h
  have hmap : (gaussNorm M s).sum = (gaussianWin M s).sum * (gaussianWin M s).sum⁻¹ := by
    simp only [gaussNorm, normalizeK, div_eq_mul_inv]
    simpa using List.sum_map_mul_right (gaussianWin M s) id (gaussianWin M s).sum⁻¹
  rw [hmap, mul_inv_cancel₀ (ne_of_gt hpos)]

theorem gaussNorm_one (s : ℝ) : gaussNorm 1 s = [1] := by
  have h1 : gaussianWin 1 s = [1] := by
    simp [gaussianWin, List.range_succ]
  simp [gaussNorm, h1, normalizeK]

/-! Helper lemmas: convolution with trivial inputs. -/

theorem fullConvAt_replicate_zero (n : ℕ) (v : List ℝ) (j : ℕ) :
    fullConvAt (List.replicate n 0) v j = 0 := by
  unfold fullConvAt
  apply Finset.sum_eq_zero
  intro m _
  rw [getD_replicate_cases]
  split <;> simp

theorem convSame_replicate_zero (n : ℕ) (v : List ℝ) :
    convSame (List.replicate n 0) v = List.replicate (max n v.length) 0 := by
  unfold convSame
  rw [List.eq_replicate_iff]
  constructor
  · simp
  · intro x hx
    simp only [List.mem_map, List.length_replicate] at hx
    obtain ⟨i, -, rfl⟩ := hx
    exact fullConvAt_replicate_zero n v _

theorem getD_singleton (c d : ℝ) (t : ℕ) :
    ([c] : List ℝ).getD t d = if t = 0 then c else d := by
  cases t <;> simp [List.getD]

theorem fullConvAt_single (a : List ℝ) (j : ℕ) :
    fullConvAt a [1] j = a.getD j 0 := by
  unfold fullConvAt
  rw [Finset.sum_eq_single j]
  · simp
  · intro m hm hne
    rw [getD_singleton]
    have : ¬(j - m = 0) := by
      simp only [Finset.mem_range] at hm
      omega
    simp [this]
  · intro hj2
    simp at hj2

theorem convSame_single (a : List ℝ) (h : 1 ≤ a.length) : convSame a [1] = a := by
  unfold convSame
  have hmax : max a.length ([1] : List ℝ).length = a.length := by simp; omega
  have hmin : (min a.length ([1] : List ℝ).length - 1) / 2 = 0 := by simp
  rw [hmax, hmin]
  apply List.ext_getElem
  · simp
  · intro i h1 h2
    simp only [List.getElem_map, List.getElem_range, Nat.add_zero]
    rw [fullConvAt_single a i, List.getD_eq_getElem]

/-! Helper lemmas: the all-zero flux is left untouched. -/

theorem getZ_replicate_zero (n : ℕ) (t : ℤ) : getZ (List.replicate n 0) t = 0 := by
  unfold getZ
  split
  · rw [getD_replicate_cases]; split <;> rfl
  · rfl

theorem median_all_zero (l : List ℝ) (h : ∀ x ∈ l, x = 0) : median l = 0 := by
  unfold median
  rcases lt_or_le ((l.length - 1) / 2) (l.insertionSort (· ≤ ·)).length with hlt | hge
  · rw [List.getD_eq_getElem _ _ hlt]
    exact h _ ((List.perm_insertionSort (· ≤ ·) l).mem_iff.1 (List.getElem_mem _))
  · rw [List.getD_eq_default _ _ hge]

theorem medfilt_replicate_zero (n k : ℕ) :
    medfilt (List.replicate n 0) k = List.replicate n 0 := by
  unfold medfilt
  rw [List.eq_replicate_iff]
  refine ⟨by simp, ?_⟩
  intro b hb
  simp only [List.mem_map, List.mem_range] at hb
  obtain ⟨i, -, rfl⟩ := hb
  apply median_all_zero
  intro x hx
  simp only [List.mem_map, List.mem_range] at hx
  obtain ⟨j, -, rfl⟩ := hx
  exact getZ_replicate_zero n _

theorem flagsOf_replicate_zero (nsigma : ℝ × ℝ) (mfarg : ℕ) (gfarg : ℕ × ℝ)
    (n : ℕ) :
    flagsOf nsigma mfarg gfarg (List.replicate n 0) = List.replicate n false := by
  have htrend : trendOf mfarg (List.replicate n 0) = List.replicate (max n 5) 0 := by
    rw [trendOf, medfilt_replicate_zero, convSame_replicate_zero, gaussNorm_length]
  have hres : resOf mfarg (List.replicate n 0) = List.replicate n 0 := by
    rw [resOf, htrend, List.zipWith_replicate]
    simp
  have hsigma : sigmaOf gfarg mfarg (List.replicate n 0)
      = List.replicate (max n gfarg.1) 0 := by
    rw [sigmaOf, hres, List.map_replicate]
    simp only [abs_zero]
    rw [convSame_replicate_zero, gaussNorm_length]
  rw [flagsOf, hres, hsigma, List.zipWith_replicate]
  simp

theorem orMask_false_left (l : List Bool) (n : ℕ) (h : l.length = n) :
    orMask (List.replicate n false) l = l := by
  apply List.ext_getElem
  · simp [orMask_length, h]
  · intro i h1 h2
    simp only [orMask, List.getElem_zipWith, List.getElem_replicate, Bool.false_or]

theorem orMask_or_self : ∀ (a b : List Bool), orMask (orMask a b) b = orMask a b := by
  intro a
  induction a with
  | nil => intro b; rfl
  | cons x a ih =>
      intro b
      rcases b with - | ⟨y, b⟩
      · rfl
      · show ((x || y) || y) :: orMask (orMask a b) b = (x || y) :: orMask a b
        rw [Bool.or_assoc, Bool.or_self, ih b]

theorem debadStep_eq_of_ok (wave : List ℝ) (nsigma : ℝ × ℝ) (mfarg : ℕ)
    (gfarg : ℕ × ℝ) (maskconv : ℕ) (st : List ℝ × List Bool) (l : List ℝ)
    (hI : interpMasked wave st.1 (dilate maskconv (flagsOf nsigma mfarg gfarg st.1))
        = Except.ok l) :
    debadStep wave nsigma mfarg gfarg maskconv st
      = (l, orMask st.2 (flagsOf nsigma mfarg gfarg st.1)) := by
  unfold debadStep
  dsimp only
  rw [hI]

theorem debadStep_eq_of_error (wave : List ℝ) (nsigma : ℝ × ℝ) (mfarg : ℕ)
    (gfarg : ℕ × ℝ) (maskconv : ℕ) (st : List ℝ × List Bool) (e : String)
    (hI : interpMasked wave st.1 (dilate maskconv (flagsOf nsigma mfarg gfarg st.1))
        = Except.error e) :
    debadStep wave nsigma mfarg gfarg maskconv st
      = (st.1, orMask st.2 (flagsOf nsigma mfarg gfarg st.1)) := by
  unfold debadStep
  dsimp only
  rw [hI]

/-- After a round whose replacement would fail (`np.interp` with empty
sample points), the round-indexed state chain is frozen: flux unchanged, so
the same flags recur and the accumulated mask absorbs them. -/
theorem debadStep_iterate_frozen (wave : List ℝ) (nsigma : ℝ × ℝ) (mfarg : ℕ)
    (gfarg : ℕ × ℝ) (maskconv : ℕ) (st : List ℝ × List Bool) (e : String)
    (hI : interpMasked wave st.1 (dilate maskconv (flagsOf nsigma mfarg gfarg st.1))
        = Except.error e) :
    ∀ r : ℕ, (debadStep wave nsigma mfarg gfarg maskconv)^[r + 1] st
      = (st.1, orMask st.2 (flagsOf nsigma mfarg gfarg st.1)) := by
  intro r
  induction r with
  | zero =>
      simpa using debadStep_eq_of_error wave nsigma mfarg gfarg maskconv st e hI
  | succ r ihr =>
      rw [Function.iterate_succ_apply', ihr,
        debadStep_eq_of_error wave nsigma mfarg gfarg maskconv
          (st.1, orMask st.2 (flagsOf nsigma mfarg gfarg st.1)) e hI]
      dsimp only
      rw [orMask_or_self]

theorem debadLoop_succ_interp_error (wave : List ℝ) (nsigma : ℝ × ℝ)
    (mfarg : ℕ) (gfarg : ℕ × ℝ) (maskconv npix : ℕ) (g' : ℕ)
    (st : List ℝ × List Bool) (e : String)
    (hg : ¬ 2 * countTrue (orMask st.2 (flagsOf nsigma mfarg gfarg st.1)) > npix)
    (hf : countTrue (flagsOf nsigma mfarg gfarg st.1) ≠ 0)
    (hI : interpMasked wave st.1 (dilate maskconv (flagsOf nsigma mfarg gfarg st.1))
        = Except.error e) :
    debadLoop wave nsigma mfarg gfarg maskconv npix (g' + 1) st
      = Except.error e := by
  rw [debadLoop.eq_def]
  dsimp only
  rw [if_neg hg, if_neg hf, hI]

theorem countTrue_eq_zero_iff (l : List Bool) :
    countTrue l = 0 ↔ ∀ b ∈ l, b = false := by
  unfold countTrue
  rw [List.count_eq_zero]
  constructor
  · intro h b hb
    cases b
    · rfl
    · exact absurd hb h
  · intro h hb
    simpa using h true hb

theorem countTrue_replicate_false (n : ℕ) :
    countTrue (List.replicate n false) = 0 := by
  simp [countTrue, List.count_replicate]

/-- Helper: the `debad` loop on a flux whose first round flags nothing
returns that flux at once. -/
theorem debadLoop_no_flags (wave : List ℝ) (nsigma : ℝ × ℝ) (mfarg : ℕ)
    (gfarg : ℕ × ℝ) (maskconv npix g : ℕ) (flux : List ℝ) (clip : List Bool)
    (hclip : 2 * countTrue (orMask clip (flagsOf nsigma mfarg gfarg flux)) ≤ npix)
    (h : countTrue (flagsOf nsigma mfarg gfarg flux) = 0) :
    debadLoop wave nsigma mfarg gfarg maskconv npix g (flux, clip)
      = Except.ok flux := by
  rw [debadLoop.eq_def]
  simp only [h]
  rw [if_neg (by omega)]
  simp

/-- C7: for every input spectrum on which the first round's clipping test
flags zero pixels, `debad` exits after that first round and returns the
input flux unchanged. -/
theorem c7_no_outliers_returns_input (wave flux : List ℝ) (nsigma : ℝ × ℝ)
    (mfarg : ℕ) (gfarg : ℕ × ℝ) (maskconv maxiter : ℕ)
    (h : countTrue (flagsOf nsigma mfarg gfarg flux) = 0) :
    debad wave flux nsigma mfarg gfarg maskconv maxiter = Except.ok flux := by
  unfold debad
  apply debadLoop_no_flags
  · rw [orMask_false_left _ _ (flagsOf_length nsigma mfarg gfarg flux), h]
    omega
  · exact h

/-- Witness for C7 at the source's default arguments on a flat zero
spectrum of 5 pixels. -/
theorem c7_no_outliers_returns_input_witness :
    countTrue (flagsOf ((4 : ℝ), 8) 21 (51, (9 : ℝ)) (List.replicate 5 0)) = 0
      ∧ debad wave5 (List.replicate 5 0) (4, 8) 21 (51, 9) 7 3
        = Except.ok (List.replicate 5 0) := by
  have h : countTrue (flagsOf ((4 : ℝ), 8) 21 (51, (9 : ℝ))
      (List.replicate 5 (0 : ℝ))) = 0 := by
    rw [flagsOf_replicate_zero]
    exact countTrue_replicate_false 5
  exact ⟨h, c7_no_outliers_returns_input wave5 _ _ _ _ _ _ h⟩

/-- C10: `MrsSpec` built from wave and flux with `ivar` and `mask` omitted
gets an all-ones `ivar` of the flux's length, an all-False (0) mask of that
length, `npix_bad = 0`, and is not the null spectrum. -/
theorem c10_default_ivar_mask (w f : List ℝ) :
    (MrsSpec.init (some w) (some f) none none).ivar
        = List.replicate f.length (FVal.finite 1)
      ∧ (MrsSpec.init (some w) (some f) none none).mask
        = List.replicate f.length 0
      ∧ (MrsSpec.init (some w) (some f) none none).npix_bad = 0
      ∧ (MrsSpec.init (some w) (some f) none none).isempty = false :=
  ⟨rfl, rfl, rfl, rfl⟩

/-- C9 counterexample: an inverse variance of `+inf` is non-finite, yet its
flux error is the finite value `0` (IEEE `pow(inf, -0.5) = 0` survives the
`np.isfinite` filter), so non-finite `ivar` entries are not always
propagated as non-finite flux errors. -/
theorem c9_flux_err_counterexample :
    (MrsSpec.init (some [0]) (some [1]) (some [FVal.pinf]) none).flux_err
        = [FVal.finite 0]
      ∧ FVal.isfinite FVal.pinf = false
      ∧ FVal.isfinite (FVal.finite 0) = true := by
  refine ⟨?_, rfl, rfl⟩
  show List.map fluxErrEntry [FVal.pinf] = [FVal.finite 0]
  simp [fluxErrEntry, powNegHalf, FVal.isfinite]

/-- C9 (amended): `flux_err` maps `ivar` entrywise; a finite positive
inverse variance gives the finite error `ivar ^ (-1/2)`; zero, negative and
NaN inverse variances give NaN; but an infinite inverse variance gives the
finite error `0`. -/
theorem c9_flux_err_amended :
    (∀ w f iv, (MrsSpec.init (some w) (some f) (some iv) none).flux_err
        = iv.map fluxErrEntry)
      ∧ (∀ x : ℝ, 0 < x →
          fluxErrEntry (FVal.finite x) = FVal.finite (x ^ (-(1 / 2) : ℝ)))
      ∧ fluxErrEntry (FVal.finite 0) = FVal.nan
      ∧ (∀ x : ℝ, x < 0 → fluxErrEntry (FVal.finite x) = FVal.nan)
      ∧ fluxErrEntry FVal.nan = FVal.nan
      ∧ fluxErrEntry FVal.pinf = FVal.finite 0
      ∧ fluxErrEntry FVal.ninf = FVal.finite 0 := by
  refine ⟨fun w f iv => rfl, ?_, ?_, ?_, rfl, ?_, ?_⟩
  · intro x hx
    simp [fluxErrEntry, powNegHalf, hx, FVal.isfinite]
  · simp [fluxErrEntry, powNegHalf, FVal.isfinite]
  · intro x hx
    simp [fluxErrEntry, powNegHalf, not_lt.2 hx.le, ne_of_lt hx, FVal.isfinite]
  · simp [fluxErrEntry, powNegHalf, FVal.isfinite]
  · simp [fluxErrEntry, powNegHalf, FVal.isfinite]

/-- Witness for C9 (amended) at the finite positive inverse variance 4. -/
theorem c9_flux_err_amended_witness :
    (0 : ℝ) < 4
      ∧ fluxErrEntry (FVal.finite 4) = FVal.finite ((4 : ℝ) ^ (-(1 / 2) : ℝ)) :=
  ⟨by norm_num, c9_flux_err_amended.2.1 4 (by norm_num)⟩

/-! Helper lemmas: the iterated loop state. -/

theorem debadStep_fst_length (wave : List ℝ) (nsigma : ℝ × ℝ) (mfarg : ℕ)
    (gfarg : ℕ × ℝ) (maskconv : ℕ) (st : List ℝ × List Bool)
    (hst : st.1.length = wave.length) :
    (debadStep wave nsigma mfarg gfarg maskconv st).1.length = wave.length := by
  rcases hI : interpMasked wave st.1
      (dilate maskconv (flagsOf nsigma mfarg gfarg st.1)) with e | l
  · rw [debadStep_eq_of_error wave nsigma mfarg gfarg maskconv st e hI]
    exact hst
  · rw [debadStep_eq_of_ok wave nsigma mfarg gfarg maskconv st l hI]
    exact interpMasked_ok_length wave st.1 _ l hI

theorem fluxAt_length (wave flux0 : List ℝ) (nsigma : ℝ × ℝ) (mfarg : ℕ)
    (gfarg : ℕ × ℝ) (maskconv : ℕ) (hlen : wave.length = flux0.length) (k : ℕ) :
    (fluxAt wave nsigma mfarg gfarg maskconv flux0 k).length = flux0.length := by
  induction k with
  | zero => rfl
  | succ k ihk =>
      unfold fluxAt at ihk ⊢
      rw [Function.iterate_succ_apply']
      rw [debadStep_fst_length wave nsigma mfarg gfarg maskconv _
        (by rw [ihk]; exact hlen.symm)]
      exact hlen

theorem maskAfter_succ (wave flux0 : List ℝ) (nsigma : ℝ × ℝ) (mfarg : ℕ)
    (gfarg : ℕ × ℝ) (maskconv : ℕ) (k : ℕ) :
    maskAfter wave nsigma mfarg gfarg maskconv flux0 (k + 1)
      = orMask (maskAfter wave nsigma mfarg gfarg maskconv flux0 k)
          (flagsOf nsigma mfarg gfarg
            (fluxAt wave nsigma mfarg gfarg maskconv flux0 k)) := by
  unfold maskAfter fluxAt
  rw [Function.iterate_succ_apply']
  rfl

theorem maskAfter_length (wave flux0 : List ℝ) (nsigma : ℝ × ℝ) (mfarg : ℕ)
    (gfarg : ℕ × ℝ) (maskconv : ℕ) (hlen : wave.length = flux0.length) (k : ℕ) :
    (maskAfter wave nsigma mfarg gfarg maskconv flux0 k).length = flux0.length := by
  induction k with
  | zero => simp [maskAfter]
  | succ k ih =>
      rw [maskAfter_succ, orMask_length, ih, flagsOf_length,
        fluxAt_length wave flux0 nsigma mfarg gfarg maskconv hlen k]
      omega

theorem getD_true_lt_length (l : List Bool) (i : ℕ)
    (h : l.getD i false = true) : i < l.length := by
  by_contra hc
  rw [List.getD_eq_default _ _ (by omega)] at h
  exact Bool.false_ne_true h

/-- C4: the cumulative outlier mask of `debad` grows monotonically — the
mask after round `k + 1` is a superset of the mask after round `k`, since
each round's flags are accumulated by elementwise logical or and a flagged
pixel is never un-flagged. -/
theorem c4_mask_monotone (wave flux0 : List ℝ) (nsigma : ℝ × ℝ) (mfarg : ℕ)
    (gfarg : ℕ × ℝ) (maskconv : ℕ) (hlen : wave.length = flux0.length) :
    (∀ k i, (maskAfter wave nsigma mfarg gfarg maskconv flux0 k).getD i false = true →
        (maskAfter wave nsigma mfarg gfarg maskconv flux0 (k + 1)).getD i false = true)
      ∧ ∀ k, maskAfter wave nsigma mfarg gfarg maskconv flux0 (k + 1)
          = orMask (maskAfter wave nsigma mfarg gfarg maskconv flux0 k)
              (flagsOf nsigma mfarg gfarg
                (fluxAt wave nsigma mfarg gfarg maskconv flux0 k)) := by
  constructor
  · intro k i h
    have hi : i < (maskAfter wave nsigma mfarg gfarg maskconv flux0 k).length :=
      getD_true_lt_length _ i h
    have hmlen := maskAfter_length wave flux0 nsigma mfarg gfarg maskconv hlen k
    have hflen : (flagsOf nsigma mfarg gfarg
        (fluxAt wave nsigma mfarg gfarg maskconv flux0 k)).length = flux0.length := by
      rw [flagsOf_length, fluxAt_length wave flux0 nsigma mfarg gfarg maskconv hlen k]
    rw [maskAfter_succ]
    have hi2 : i < (orMask (maskAfter wave nsigma mfarg gfarg maskconv flux0 k)
        (flagsOf nsigma mfarg gfarg
          (fluxAt wave nsigma mfarg gfarg maskconv flux0 k))).length := by
      rw [orMask_length, hmlen, hflen]
      omega
    rw [List.getD_eq_getElem _ _ hi2]
    rw [List.getD_eq_getElem _ _ hi] at h
    simp only [orMask, List.getElem_zipWith]
    rw [h]
    rfl
  · exact maskAfter_succ wave flux0 nsigma mfarg gfarg maskconv

/-- Witness for C4 on a concrete 5-pixel spectrum. -/
theorem c4_mask_monotone_witness :
    wave5.length = exflux.length
      ∧ ((maskAfter wave5 ((1 : ℝ) / 2, 1 / 2) 3 (1, 1) 1 exflux 1).getD 0 false = true →
          (maskAfter wave5 ((1 : ℝ) / 2, 1 / 2) 3 (1, 1) 1 exflux 2).getD 0 false = true) := by
  have hlen : wave5.length = exflux.length := by simp [wave5, exflux]
  exact ⟨hlen, (c4_mask_monotone wave5 exflux ((1 : ℝ) / 2, 1 / 2) 3 (1, 1) 1 hlen).1 1 0⟩

/-- C6: in every round the trend is the width-`mfarg` median filter of the
current flux convolved with the fixed unit-sum Gaussian kernel of length 5
and standard deviation 1/2 — `trendOf` takes no `gfarg`, so the trend kernel
is independent of the caller's configuration — while the noise-scale curve
convolves the absolute residuals with the caller-configurable unit-sum
Gaussian kernel of length `gfarg.1` and standard deviation `gfarg.2`
(source default `(51, 9)`); both kernels are normalized to unit sum. -/
theorem c6_kernels (mfarg : ℕ) (gfarg : ℕ × ℝ) (flux : List ℝ)
    (hg : 1 ≤ gfarg.1) :
    trendOf mfarg flux = convSame (medfilt flux mfarg) (gaussNorm 5 (1 / 2))
      ∧ (gaussNorm 5 (1 / 2)).length = 5
      ∧ (gaussNorm 5 (1 / 2)).sum = 1
      ∧ resOf mfarg flux = List.zipWith (· - ·) flux (trendOf mfarg flux)
      ∧ sigmaOf gfarg mfarg flux
        = convSame ((resOf mfarg flux).map (fun x => |x|)) (gaussNorm gfarg.1 gfarg.2)
      ∧ (gaussNorm gfarg.1 gfarg.2).length = gfarg.1
      ∧ (gaussNorm gfarg.1 gfarg.2).sum = 1 :=
  ⟨rfl, gaussNorm_length 5 _, gaussNorm_sum 5 _ (by norm_num), rfl, rfl,
    gaussNorm_length _ _, gaussNorm_sum _ _ hg⟩

/-- Witness for C6 at the source defaults `mfarg = 21`, `gfarg = (51, 9)`. -/
theorem c6_kernels_witness :
    (1 ≤ ((51, (9 : ℝ)) : ℕ × ℝ).1)
      ∧ (gaussNorm ((51, (9 : ℝ)) : ℕ × ℝ).1 ((51, (9 : ℝ)) : ℕ × ℝ).2).sum = 1
      ∧ (gaussNorm 5 (1 / 2)).sum = 1 := by
  have h := c6_kernels 21 (51, (9 : ℝ)) exflux (by norm_num)
  exact ⟨by norm_num, h.2.2.2.2.2.2, h.2.2.1⟩

/-! Concrete evaluation of one clipping round on `exflux`. -/

theorem int_toNat_two : Int.toNat 2 = 2 := rfl

theorem int_toNat_three : Int.toNat 3 = 3 := rfl

theorem int_toNat_four : Int.toNat 4 = 4 := rfl

theorem int_toNat_five : Int.toNat 5 = 5 := rfl

theorem int_toNat_six : Int.toNat 6 = 6 := rfl

theorem int_toNat_seven : Int.toNat 7 = 7 := rfl

theorem int_toNat_eight : Int.toNat 8 = 8 := rfl

theorem medfilt_exflux : medfilt exflux 3 = List.replicate 5 0 := by
  norm_num [medfilt, median, getZ, exflux, List.range_succ, List.insertionSort,
    List.orderedInsert, List.getD, List.replicate, int_toNat_two, int_toNat_three,
    int_toNat_four, int_toNat_five, int_toNat_six]

theorem trend_exflux : trendOf 3 exflux = List.replicate 5 0 := by
  rw [trendOf, medfilt_exflux, convSame_replicate_zero, gaussNorm_length, max_self]

theorem zipWith_sub_replicate_zero (a : List ℝ) (m : ℕ) (h : a.length ≤ m) :
    List.zipWith (· - ·) a (List.replicate m 0) = a := by
  apply List.ext_getElem
  · simp
    omega
  · intro i h1 h2
    simp [List.getElem_zipWith]

theorem res_exflux : resOf 3 exflux = exflux := by
  rw [resOf, trend_exflux]
  exact zipWith_sub_replicate_zero exflux 5 (by simp [exflux])

theorem sigma_exflux : sigmaOf (1, 1) 3 exflux = [1, 1, 0, 1, 1] := by
  rw [sigmaOf, res_exflux]
  show convSame (exflux.map (fun x => |x|)) (gaussNorm 1 1) = [1, 1, 0, 1, 1]
  rw [gaussNorm_one, convSame_single _ (by simp [exflux])]
  norm_num [exflux]

theorem flags_exflux_sym :
    flagsOf ((1 : ℝ) / 2, 1 / 2) 3 (1, 1) exflux
      = [true, true, false, true, true] := by
  rw [flagsOf, res_exflux, sigma_exflux]
  norm_num [exflux, List.zipWith, decide_eq_true_eq]

theorem flags_exflux_c1 :
    flagsOf ((1 : ℝ) / 2, 4) 3 (1, 1) exflux
      = [true, false, false, true, false] := by
  rw [flagsOf, res_exflux, sigma_exflux]
  norm_num [exflux, List.zipWith, decide_eq_true_eq]

/-- C1 (amended): in every round of `debad` a pixel is flagged exactly when
its residual exceeds `noise_scale * nsigma.1` (the first component of
`nsigma = (lo, hi)`) or lies below `-(noise_scale * nsigma.2)` (the second
component): the source pairs `nsigma[0]` with positive spikes and
`nsigma[1]` with negative dips, the opposite pairing from the spec's
wording; each threshold still acts independently on its own sign. -/
theorem c1_clip_rule_amended (nsigma : ℝ × ℝ) (mfarg : ℕ) (gfarg : ℕ × ℝ)
    (flux : List ℝ) (i : ℕ) (_h5 : 5 ≤ flux.length) (_hg : gfarg.1 ≤ flux.length)
    (hi : i < flux.length) :
    (flagsOf nsigma mfarg gfarg flux).getD i false = true
      ↔ (resOf mfarg flux).getD i 0 > (sigmaOf gfarg mfarg flux).getD i 0 * nsigma.1
        ∨ (resOf mfarg flux).getD i 0
            < -((sigmaOf gfarg mfarg flux).getD i 0 * nsigma.2) := by
  have hres := resOf_length mfarg flux
  have hsig := sigmaOf_length gfarg mfarg flux
  have hflen := flagsOf_length nsigma mfarg gfarg flux
  rw [List.getD_eq_getElem _ _ (show i < (flagsOf nsigma mfarg gfarg flux).length by omega),
    List.getD_eq_getElem _ _ (show i < (resOf mfarg flux).length by omega),
    List.getD_eq_getElem _ _ (show i < (sigmaOf gfarg mfarg flux).length by
      rw [hsig]; omega)]
  simp only [flagsOf, List.getElem_zipWith, Bool.or_eq_true, decide_eq_true_eq]

/-- C1 counterexample: with `nsigma = (lo, hi) = (1/2, 4)` on the concrete
spectrum `exflux`, round 1 of `debad` flags pixel 0 (residual 1, noise scale
1, and `1 > 1 * (1/2)`), although the specification's rule — residual above
`noise_scale * hi` or below `-(noise_scale * lo)` — is false there. -/
theorem c1_clip_rule_counterexample :
    (flagsOf ((1 : ℝ) / 2, 4) 3 (1, 1) exflux).getD 0 false = true
      ∧ ¬ specClipPred ((1 : ℝ) / 2, 4) ((resOf 3 exflux).getD 0 0)
          ((sigmaOf (1, 1) 3 exflux).getD 0 0) := by
  rw [flags_exflux_c1, res_exflux, sigma_exflux]
  refine ⟨rfl, ?_⟩
  unfold specClipPred
  norm_num [exflux]

/-- Witness for C1 (amended) at pixel 0 of the concrete spectrum. -/
theorem c1_clip_rule_amended_witness :
    (5 ≤ exflux.length ∧ ((1, 1) : ℕ × ℝ).1 ≤ exflux.length ∧ 0 < exflux.length)
      ∧ ((flagsOf ((1 : ℝ) / 2, 4) 3 (1, 1) exflux).getD 0 false = true
          ↔ (resOf 3 exflux).getD 0 0
              > (sigmaOf (1, 1) 3 exflux).getD 0 0 * (((1 : ℝ) / 2, (4 : ℝ))).1
            ∨ (resOf 3 exflux).getD 0 0
              < -((sigmaOf (1, 1) 3 exflux).getD 0 0 * (((1 : ℝ) / 2, (4 : ℝ))).2)) :=
  ⟨⟨by simp [exflux], by simp [exflux], by simp [exflux]⟩,
    c1_clip_rule_amended ((1 : ℝ) / 2, 4) 3 (1, 1) exflux 0
      (by simp [exflux]) (by simp [exflux]) (by simp [exflux])⟩

/-! The loop errors exactly when the guard fires in some executed round. -/

theorem debadLoop_error_char (wave : List ℝ) (nsigma : ℝ × ℝ) (mfarg : ℕ)
    (gfarg : ℕ × ℝ) (maskconv npix : ℕ) :
    ∀ (g : ℕ) (st : List ℝ × List Bool),
      debadLoop wave nsigma mfarg gfarg maskconv npix g st
          = Except.error "Too many bad pixels!"
        ↔ ∃ r, r ≤ g
            ∧ 2 * countTrue (orMask
                ((debadStep wave nsigma mfarg gfarg maskconv)^[r] st).2
                (flagsOf nsigma mfarg gfarg
                  ((debadStep wave nsigma mfarg gfarg maskconv)^[r] st).1)) > npix
            ∧ ∀ j < r,
                2 * countTrue (orMask
                    ((debadStep wave nsigma mfarg gfarg maskconv)^[j] st).2
                    (flagsOf nsigma mfarg gfarg
                      ((debadStep wave nsigma mfarg gfarg maskconv)^[j] st).1)) ≤ npix
                ∧ countTrue (flagsOf nsigma mfarg gfarg
                    ((debadStep wave nsigma mfarg gfarg maskconv)^[j] st).1) ≠ 0 := by
  intro g
  induction g with
  | zero =>
      intro st
      rw [debadLoop.eq_def]
      dsimp only
      by_cases hg : 2 * countTrue (orMask st.2 (flagsOf nsigma mfarg gfarg st.1)) > npix
      · rw [if_pos hg]
        constructor
        · intro _
          exact ⟨0, le_refl 0, by simpa using hg, by omega⟩
        · intro _
          rfl
      · rw [if_neg hg]
        constructor
        · intro h
          split at h <;> exact absurd h (by simp)
        · rintro ⟨r, hr, hguard, -⟩
          have hr0 : r = 0 := by omega
          subst hr0
          simp only [Function.iterate_zero, id_eq] at hguard
          omega
  | succ g ih =>
      intro st
      rw [debadLoop.eq_def]
      dsimp only
      by_cases hg : 2 * countTrue (orMask st.2 (flagsOf nsigma mfarg gfarg st.1)) > npix
      · rw [if_pos hg]
        constructor
        · intro _
          exact ⟨0, by omega, by simpa using hg, by omega⟩
        · intro _
          rfl
      · rw [if_neg hg]
        by_cases hf : countTrue (flagsOf nsigma mfarg gfarg st.1) = 0
        · rw [if_pos hf]
          constructor
          · intro h
            exact absurd h (by simp)
          · rintro ⟨r, hr, hguard, hprev⟩
            rcases Nat.eq_zero_or_pos r with rfl | hrpos
            · simp only [Function.iterate_zero, id_eq] at hguard
              omega
            · have h0 := (hprev 0 hrpos).2
              simp only [Function.iterate_zero, id_eq] at h0
              exact absurd hf h0
        · rw [if_neg hf]
          rcases hI : interpMasked wave st.1
              (dilate maskconv (flagsOf nsigma mfarg gfarg st.1)) with e | fluxnew
          · dsimp only
            have hestr := interpMasked_error_string wave st.1 _ e hI
            constructor
            · intro hcontra
              rw [Except.error.injEq] at hcontra
              rw [hestr] at hcontra
              exact absurd hcontra (by decide)
            · rintro ⟨r, hr, hguard, hprev⟩
              exfalso
              cases r with
              | zero =>
                  simp only [Function.iterate_zero, id_eq] at hguard
                  omega
              | succ r =>
                  rw [debadStep_iterate_frozen wave nsigma mfarg gfarg maskconv st e hI r]
                    at hguard
                  dsimp only at hguard
                  rw [orMask_or_self] at hguard
                  omega
          · dsimp only
            have hstep := debadStep_eq_of_ok wave nsigma mfarg gfarg maskconv st fluxnew hI
            rw [show (fluxnew, orMask st.2 (flagsOf nsigma mfarg gfarg st.1))
                = debadStep wave nsigma mfarg gfarg maskconv st from hstep.symm]
            rw [ih (debadStep wave nsigma mfarg gfarg maskconv st)]
            constructor
            · rintro ⟨r, hr, hguard, hprev⟩
              refine ⟨r + 1, by omega, ?_, ?_⟩
              · rw [Function.iterate_succ_apply]
                exact hguard
              · intro j hj
                cases j with
                | zero =>
                    simp only [Function.iterate_zero, id_eq]
                    exact ⟨by omega, hf⟩
                | succ j =>
                    rw [Function.iterate_succ_apply]
                    exact hprev j (by omega)
            · rintro ⟨r, hr, hguard, hprev⟩
              cases r with
              | zero =>
                  simp only [Function.iterate_zero, id_eq] at hguard
                  omega
              | succ r =>
                  refine ⟨r, by omega, ?_, ?_⟩
                  · rw [← Function.iterate_succ_apply]
                    exact hguard
                  · intro j hj
                    have hjs := hprev (j + 1) (by omega)
                    rw [Function.iterate_succ_apply] at hjs
                    exact hjs

/-- C2: `debad` raises the unrecoverable "Too many bad pixels!" error exactly
when some executed round, after accumulating its flags, has a cumulative
mask covering more than 50% of the pixels (the preceding rounds having
passed the guard and flagged new outliers); in the error case no flux is
returned.  Moreover the concrete 5-pixel spectrum `exflux`, 4 of whose
pixels are extreme spikes/dips, trips the guard. -/
theorem c2_overclip_guard :
    (∀ (wave flux : List ℝ) (nsigma : ℝ × ℝ) (mfarg : ℕ) (gfarg : ℕ × ℝ)
        (maskconv maxiter : ℕ),
        debad wave flux nsigma mfarg gfarg maskconv maxiter
            = Except.error "Too many bad pixels!"
          ↔ ∃ r, r ≤ maxiter - 1
              ∧ 2 * countTrue (maskAfter wave nsigma mfarg gfarg maskconv flux (r + 1))
                  > flux.length
              ∧ ∀ j < r,
                  2 * countTrue (maskAfter wave nsigma mfarg gfarg maskconv flux (j + 1))
                      ≤ flux.length
                  ∧ countTrue (flagsOf nsigma mfarg gfarg
                      (fluxAt wave nsigma mfarg gfarg maskconv flux j)) ≠ 0)
      ∧ debad wave5 exflux ((1 : ℝ) / 2, 1 / 2) 3 (1, 1) 1 3
          = Except.error "Too many bad pixels!" := by
  constructor
  · intro wave flux nsigma mfarg gfarg maskconv maxiter
    have h := debadLoop_error_char wave nsigma mfarg gfarg maskconv flux.length
      (maxiter - 1) (flux, List.replicate flux.length false)
    have hmask : ∀ r : ℕ,
        orMask ((debadStep wave nsigma mfarg gfarg maskconv)^[r]
            (flux, List.replicate flux.length false)).2
          (flagsOf nsigma mfarg gfarg
            (fluxAt wave nsigma mfarg gfarg maskconv flux r))
        = maskAfter wave nsigma mfarg gfarg maskconv flux (r + 1) := by
      intro r
      rw [maskAfter_succ]
      rfl
    have hflux : ∀ r : ℕ,
        ((debadStep wave nsigma mfarg gfarg maskconv)^[r]
            (flux, List.replicate flux.length false)).1
        = fluxAt wave nsigma mfarg gfarg maskconv flux r := fun r => rfl
    rw [debad]
    refine h.trans ?_
    simp only [hflux]
    simp only [hmask]
  · rw [debad]
    have hlen : exflux.length = 5 := by simp [exflux]
    rw [hlen, debadLoop.eq_def]
    dsimp only
    rw [orMask_false_left _ _ (by rw [flagsOf_length, hlen]), flags_exflux_sym]
    rw [if_pos (by decide)]

/-! Characterization of the loop's non-error results. -/

theorem debadLoop_ok_char (wave : List ℝ) (nsigma : ℝ × ℝ) (mfarg : ℕ)
    (gfarg : ℕ × ℝ) (maskconv npix : ℕ) :
    ∀ (g : ℕ) (st : List ℝ × List Bool),
      (∀ msg : String,
        debadLoop wave nsigma mfarg gfarg maskconv npix g st ≠ Except.error msg) →
      ∃ k, k ≤ g
        ∧ debadLoop wave nsigma mfarg gfarg maskconv npix g st
            = Except.ok (((debadStep wave nsigma mfarg gfarg maskconv)^[k] st).1)
        ∧ (countTrue (flagsOf nsigma mfarg gfarg
              (((debadStep wave nsigma mfarg gfarg maskconv)^[k] st).1)) = 0 ∨ k = g)
        ∧ ∀ j < k, countTrue (flagsOf nsigma mfarg gfarg
            (((debadStep wave nsigma mfarg gfarg maskconv)^[j] st).1)) ≠ 0 := by
  intro g
  induction g with
  | zero =>
      intro st h
      by_cases hg : 2 * countTrue (orMask st.2 (flagsOf nsigma mfarg gfarg st.1)) > npix
      · exfalso
        apply h "Too many bad pixels!"
        rw [debadLoop.eq_def]
        dsimp only
        rw [if_pos hg]
      · have hloop0 : debadLoop wave nsigma mfarg gfarg maskconv npix 0 st
            = Except.ok st.1 := by
          rw [debadLoop.eq_def]
          dsimp only
          rw [if_neg hg]
          by_cases hf : countTrue (flagsOf nsigma mfarg gfarg st.1) = 0
          · rw [if_pos hf]
          · rw [if_neg hf]
        by_cases hf : countTrue (flagsOf nsigma mfarg gfarg st.1) = 0
        · exact ⟨0, le_refl 0, hloop0, Or.inl hf, by omega⟩
        · exact ⟨0, le_refl 0, hloop0, Or.inr rfl, by omega⟩
  | succ g ih =>
      intro st h
      by_cases hg : 2 * countTrue (orMask st.2 (flagsOf nsigma mfarg gfarg st.1)) > npix
      · exfalso
        apply h "Too many bad pixels!"
        rw [debadLoop.eq_def]
        dsimp only
        rw [if_pos hg]
      · by_cases hf : countTrue (flagsOf nsigma mfarg gfarg st.1) = 0
        · have hloop0 : debadLoop wave nsigma mfarg gfarg maskconv npix (g + 1) st
              = Except.ok st.1 := by
            rw [debadLoop.eq_def]
            dsimp only
            rw [if_neg hg, if_pos hf]
          exact ⟨0, by omega, hloop0, Or.inl hf, by omega⟩
        · rcases hI : interpMasked wave st.1
              (dilate maskconv (flagsOf nsigma mfarg gfarg st.1)) with e | fluxnew
          · exfalso
            exact h e (debadLoop_succ_interp_error wave nsigma mfarg gfarg maskconv
              npix g st e hg hf hI)
          · have hstep := debadStep_eq_of_ok wave nsigma mfarg gfarg maskconv st fluxnew hI
            have hloop : debadLoop wave nsigma mfarg gfarg maskconv npix (g + 1) st
                = debadLoop wave nsigma mfarg gfarg maskconv npix g
                    (debadStep wave nsigma mfarg gfarg maskconv st) := by
              rw [debadLoop.eq_def]
              dsimp only
              rw [if_neg hg, if_neg hf, hI, hstep]
            have h2 : ∀ msg : String,
                debadLoop wave nsigma mfarg gfarg maskconv npix g
                    (debadStep wave nsigma mfarg gfarg maskconv st)
                  ≠ Except.error msg := by
              intro msg hmsg
              apply h msg
              rw [hloop]
              exact hmsg
            obtain ⟨k, hk, hres, hdisj, hprev⟩ :=
              ih (debadStep wave nsigma mfarg gfarg maskconv st) h2
            refine ⟨k + 1, by omega, ?_, ?_, ?_⟩
            · rw [hloop, Function.iterate_succ_apply]
              exact hres
            · rcases hdisj with hz | hkg
              · left
                rw [Function.iterate_succ_apply]
                exact hz
              · right
                omega
            · intro j hj
              cases j with
              | zero =>
                  simp only [Function.iterate_zero, id_eq]
                  exact hf
              | succ j =>
                  rw [Function.iterate_succ_apply]
                  exact hprev j (by omega)

/-- Helper: `debad` on an all-zero flux returns it unchanged (round 1 flags
nothing). -/
theorem debad_zero_ok (wave : List ℝ) (n : ℕ) (nsigma : ℝ × ℝ) (mfarg : ℕ)
    (gfarg : ℕ × ℝ) (maskconv maxiter : ℕ) :
    debad wave (List.replicate n 0) nsigma mfarg gfarg maskconv maxiter
      = Except.ok (List.replicate n 0) := by
  unfold debad
  apply debadLoop_no_flags
  · rw [List.length_replicate,
      orMask_false_left _ _ (by rw [flagsOf_length, List.length_replicate]),
      flagsOf_replicate_zero, countTrue_replicate_false]
    omega
  · rw [flagsOf_replicate_zero]
    exact countTrue_replicate_false n

/-- C3 (amended): whenever `maxiter ≥ 1` and the call raises no error —
neither the over-clipping guard's RuntimeError nor `np.interp`'s
empty-sample-points ValueError, which `debad` can also hit when a continuing
round's dilated mask covers every pixel — `debad` terminates within
`maxiter` rounds, returning the flux current at entry of some round
`k + 1 ≤ maxiter`: the first round that flags no new outliers, or the round
at the iteration cap; that returned flux is exactly `fluxAt k`, so the
flags of the final round are not dilated and not interpolated over. -/
theorem c3_terminates_within_cap (wave flux : List ℝ) (nsigma : ℝ × ℝ)
    (mfarg : ℕ) (gfarg : ℕ × ℝ) (maskconv maxiter : ℕ) (hmax : 1 ≤ maxiter)
    (herr : ∀ msg : String,
      debad wave flux nsigma mfarg gfarg maskconv maxiter ≠ Except.error msg) :
    ∃ k < maxiter,
      debad wave flux nsigma mfarg gfarg maskconv maxiter
          = Except.ok (fluxAt wave nsigma mfarg gfarg maskconv flux k)
        ∧ (countTrue (flagsOf nsigma mfarg gfarg
              (fluxAt wave nsigma mfarg gfarg maskconv flux k)) = 0
            ∨ k = maxiter - 1)
        ∧ ∀ j < k, countTrue (flagsOf nsigma mfarg gfarg
            (fluxAt wave nsigma mfarg gfarg maskconv flux j)) ≠ 0 := by
  obtain ⟨k, hk, hres, hdisj, hprev⟩ :=
    debadLoop_ok_char wave nsigma mfarg gfarg maskconv flux.length (maxiter - 1)
      (flux, List.replicate flux.length false) (fun msg => herr msg)
  refine ⟨k, by omega, hres, ?_, hprev⟩
  rcases hdisj with hz | hkg
  · exact Or.inl hz
  · exact Or.inr (by omega)

/-- Witness for C3 on an all-zero 5-pixel spectrum with the source's default
arguments. -/
theorem c3_terminates_within_cap_witness :
    ((1 : ℕ) ≤ 3
      ∧ ∀ msg : String,
          debad wave5 (List.replicate 5 0) ((4 : ℝ), 8) 21 (51, (9 : ℝ)) 7 3
            ≠ Except.error msg)
      ∧ ∃ k < 3,
          debad wave5 (List.replicate 5 0) ((4 : ℝ), 8) 21 (51, (9 : ℝ)) 7 3
              = Except.ok (fluxAt wave5 ((4 : ℝ), 8) 21 (51, (9 : ℝ)) 7
                  (List.replicate 5 0) k)
            ∧ (countTrue (flagsOf ((4 : ℝ), 8) 21 (51, (9 : ℝ))
                  (fluxAt wave5 ((4 : ℝ), 8) 21 (51, (9 : ℝ)) 7
                    (List.replicate 5 0) k)) = 0
                ∨ k = 3 - 1)
            ∧ ∀ j < k, countTrue (flagsOf ((4 : ℝ), 8) 21 (51, (9 : ℝ))
                (fluxAt wave5 ((4 : ℝ), 8) 21 (51, (9 : ℝ)) 7
                  (List.replicate 5 0) j)) ≠ 0 := by
  have herr : ∀ msg : String,
      debad wave5 (List.replicate 5 0) ((4 : ℝ), 8) 21 (51, (9 : ℝ)) 7 3
        ≠ Except.error msg := by
    intro msg h
    rw [debad_zero_ok] at h
    cases h
  exact ⟨⟨by norm_num, herr⟩,
    c3_terminates_within_cap wave5 (List.replicate 5 0) ((4 : ℝ), 8) 21
      (51, (9 : ℝ)) 7 3 (by norm_num) herr⟩

/-! `np.interp` returns the anchor ordinate exactly at each anchor abscissa
(for strictly increasing anchors, in exact arithmetic). -/

theorem interpGo_mem : ∀ (ps : List (ℝ × ℝ)) (p : ℝ × ℝ) (x y : ℝ),
    ((p :: ps).map Prod.fst).Pairwise (· < ·) → (x, y) ∈ ps →
    interpGo x p ps = y := by
  intro ps
  induction ps with
  | nil =>
      intro p x y _ hmem
      cases hmem
  | cons q rest ih =>
      intro p x y hpair hmem
      have hpq : p.1 < q.1 := by
        rw [List.map_cons, List.pairwise_cons] at hpair
        exact hpair.1 q.1 (by simp)
      have hq' : ((q :: rest).map Prod.fst).Pairwise (· < ·) := by
        rw [List.map_cons, List.pairwise_cons] at hpair
        exact hpair.2
      rcases List.mem_cons.1 hmem with heq | hrest
      · subst heq
        simp only [interpGo]
        rw [if_pos (le_refl x)]
        rw [mul_div_assoc, div_self (sub_ne_zero.2 (ne_of_gt hpq)), mul_one]
        ring
      · have hqx : q.1 < x := by
          rw [List.map_cons, List.pairwise_cons] at hq'
          exact hq'.1 _ (List.mem_map_of_mem Prod.fst hrest)
        simp only [interpGo]
        rw [if_neg (not_le.2 hqx)]
        exact ih q x y hq' hrest

theorem interpVal_mem (p : ℝ × ℝ) (ps : List (ℝ × ℝ)) (x y : ℝ)
    (hpair : ((p :: ps).map Prod.fst).Pairwise (· < ·))
    (hmem : (x, y) ∈ p :: ps) :
    (if x ≤ p.1 then p.2 else interpGo x p ps) = y := by
  rcases List.mem_cons.1 hmem with heq | hrest
  · subst heq
    rw [if_pos (le_refl x)]
  · have hpx : p.1 < x :=
      List.rel_of_pairwise_cons hpair (List.mem_map_of_mem Prod.fst hrest)
    rw [if_neg (not_le.2 hpx)]
    exact interpGo_mem ps p x y hpair hrest

theorem interp_ok_mem (xp fp : List ℝ) (x y : ℝ)
    (hpair : ((xp.zip fp).map Prod.fst).Pairwise (· < ·))
    (hmem : (x, y) ∈ xp.zip fp) : interp x xp fp = Except.ok y := by
  rw [interp]
  rcases hz : xp.zip fp with - | ⟨p, ps⟩
  · rw [hz] at hmem
    cases hmem
  · rw [hz] at hmem hpair
    dsimp only
    rw [interpVal_mem p ps x y hpair hmem]

theorem selectNot_nil_left {α : Type} (d : List Bool) :
    selectNot ([] : List α) d = [] := by
  simp [selectNot]

theorem selectNot_nil_right {α : Type} (a : List α) : selectNot a [] = [] := by
  simp [selectNot]

theorem selectNot_cons_false {α : Type} (x : α) (a : List α) (d : List Bool) :
    selectNot (x :: a) (false :: d) = x :: selectNot a d := by
  simp [selectNot, List.filter_cons]

theorem selectNot_cons_true {α : Type} (x : α) (a : List α) (d : List Bool) :
    selectNot (x :: a) (true :: d) = selectNot a d := by
  simp [selectNot, List.filter_cons]

theorem zip_selectNot : ∀ (w f : List ℝ) (d : List Bool),
    w.length = f.length →
    (selectNot w d).zip (selectNot f d) = selectNot (w.zip f) d := by
  intro w
  induction w with
  | nil =>
      intro f d h
      have : f = [] := List.length_eq_zero.1 h.symm
      subst this
      simp [selectNot]
  | cons a w ih =>
      intro f d h
      rcases f with - | ⟨b, f⟩
      · simp at h
      rcases d with - | ⟨c, d⟩
      · rw [selectNot_nil_right, selectNot_nil_right, selectNot_nil_right]
        rfl
      have hlen : w.length = f.length := by simpa using h
      cases c
      · rw [selectNot_cons_false, selectNot_cons_false, List.zip_cons_cons,
          List.zip_cons_cons, selectNot_cons_false, ih f d hlen]
      · rw [selectNot_cons_true, selectNot_cons_true, List.zip_cons_cons,
          selectNot_cons_true, ih f d hlen]

theorem selectNot_pair_sublist (w f : List ℝ) (d : List Bool)
    (hwf : w.length = f.length) (hd : w.length ≤ d.length) :
    List.Sublist (selectNot (w.zip f) d) (w.zip f) := by
  have h1 : List.Sublist (((w.zip f).zip d).filter (fun q => !q.2))
      ((w.zip f).zip d) := List.filter_sublist _
  have h2 := h1.map Prod.fst
  rwa [List.map_fst_zip (w.zip f) d
    (by rw [List.length_zip]; omega)] at h2

theorem mem_selectNot_pair (w f : List ℝ) (d : List Bool) (i : ℕ)
    (hwf : w.length = f.length) (hd : d.length = w.length) (hi : i < w.length)
    (hdi : d.getD i false = false) :
    (w[i], f[i]) ∈ selectNot (w.zip f) d := by
  have hif : i < f.length := by omega
  have hid : i < d.length := by omega
  have hizz : i < ((w.zip f).zip d).length := by
    rw [List.length_zip, List.length_zip]
    omega
  have he : ((w.zip f).zip d)[i] = ((w[i], f[i]), d[i]) := by
    rw [List.getElem_zip, List.getElem_zip]
  have hdif : d[i] = false := by
    rw [List.getD_eq_getElem _ _ hid] at hdi
    exact hdi
  have hmem : ((w[i], f[i]), d[i]) ∈ (w.zip f).zip d := by
    rw [← he]
    exact List.getElem_mem hizz
  unfold selectNot
  apply List.mem_map.2
  refine ⟨((w[i], f[i]), d[i]), ?_, rfl⟩
  rw [List.mem_filter]
  exact ⟨hmem, by rw [hdif]; rfl⟩

theorem selectNot_length_congr : ∀ (w f : List ℝ) (d : List Bool),
    w.length = f.length → (selectNot w d).length = (selectNot f d).length := by
  intro w
  induction w with
  | nil =>
      intro f d h
      have hf : f = [] := List.length_eq_zero.1 h.symm
      subst hf
      rfl
  | cons a w ih =>
      intro f d h
      rcases f with - | ⟨b, f⟩
      · simp at h
      rcases d with - | ⟨c, d⟩
      · rw [selectNot_nil_right, selectNot_nil_right]
      have hlen : w.length = f.length := by simpa using h
      cases c
      · rw [selectNot_cons_false, selectNot_cons_false]
        simp only [List.length_cons]
        rw [ih f d hlen]
      · rw [selectNot_cons_true, selectNot_cons_true]
        exact ih f d hlen

theorem interpMasked_ok_keep (wave flux : List ℝ) (d : List Bool) (l : List ℝ)
    (hok : interpMasked wave flux d = Except.ok l)
    (hwf : wave.length = flux.length) (hd : d.length = wave.length)
    (hsort : wave.Pairwise (· < ·)) (i : ℕ) (hi : i < wave.length)
    (hdi : d.getD i false = false) :
    l.getD i 0 = flux.getD i 0 := by
  unfold interpMasked at hok
  rcases hz : (selectNot wave d).zip (selectNot flux d) with - | ⟨p, ps⟩ <;>
    rw [hz] at hok
  · simp at hok
  · simp only [Except.ok.injEq] at hok
    have hz2 : selectNot (wave.zip flux) d = p :: ps := by
      rw [← zip_selectNot wave flux d hwf, hz]
    have hpair : ((p :: ps).map Prod.fst).Pairwise (· < ·) := by
      rw [← hz2]
      have hsub := (selectNot_pair_sublist wave flux d hwf (by omega)).map Prod.fst
      rw [List.map_fst_zip wave flux (by omega)] at hsub
      exact hsort.sublist hsub
    have hmem : (wave[i], flux[i]) ∈ p :: ps := by
      rw [← hz2]
      exact mem_selectNot_pair wave flux d i hwf hd hi hdi
    rw [← hok, List.getD_eq_getElem _ _ (by rw [List.length_map]; exact hi),
      List.getElem_map, List.getD_eq_getElem _ _ (by omega : i < flux.length)]
    exact interpVal_mem p ps wave[i] flux[i] hpair hmem

/-- C5 (amended): a `debad` round that flags new outliers without reaching
the iteration cap dilates the round's flags by convolving them as 0/1 with a
boxcar of width `maskconv` and thresholding at `> 0`.  When the dilated mask
leaves at least one pixel unflagged, the round continues with the flux
replaced by `np.interp` over the original `wave` using exactly the pixels
unflagged in the dilated mask as anchors — each new flux value is
`np.interp`'s value at that pixel's wavelength, and for strictly increasing
`wave` every pixel outside the dilated mask keeps its current flux exactly.
When the dilated mask covers every pixel, `np.interp` receives an empty
array of sample points and the call aborts with that error instead of
interpolating. -/
theorem c5_dilate_and_interpolate (wave flux : List ℝ) (clip : List Bool)
    (nsigma : ℝ × ℝ) (mfarg : ℕ) (gfarg : ℕ × ℝ) (maskconv npix g : ℕ)
    (hsort : wave.Pairwise (· < ·)) (hwf : wave.length = flux.length)
    (hmc : maskconv ≤ flux.length) :
    (2 * countTrue (orMask clip (flagsOf nsigma mfarg gfarg flux)) ≤ npix →
        countTrue (flagsOf nsigma mfarg gfarg flux) ≠ 0 →
        selectNot wave (dilate maskconv (flagsOf nsigma mfarg gfarg flux)) ≠ [] →
        debadLoop wave nsigma mfarg gfarg maskconv npix (g + 1) (flux, clip)
            = debadLoop wave nsigma mfarg gfarg maskconv npix g
                (debadStep wave nsigma mfarg gfarg maskconv (flux, clip))
          ∧ interpMasked wave flux (dilate maskconv (flagsOf nsigma mfarg gfarg flux))
            = Except.ok ((debadStep wave nsigma mfarg gfarg maskconv (flux, clip)).1)
          ∧ ∀ i < wave.length,
              interp (wave.getD i 0)
                  (selectNot wave (dilate maskconv (flagsOf nsigma mfarg gfarg flux)))
                  (selectNot flux (dilate maskconv (flagsOf nsigma mfarg gfarg flux)))
                = Except.ok
                    ((debadStep wave nsigma mfarg gfarg maskconv (flux, clip)).1.getD i 0))
      ∧ (2 * countTrue (orMask clip (flagsOf nsigma mfarg gfarg flux)) ≤ npix →
          countTrue (flagsOf nsigma mfarg gfarg flux) ≠ 0 →
          selectNot wave (dilate maskconv (flagsOf nsigma mfarg gfarg flux)) = [] →
          debadLoop wave nsigma mfarg gfarg maskconv npix (g + 1) (flux, clip)
            = Except.error "array of sample points is empty")
      ∧ ∀ i < wave.length,
          (dilate maskconv (flagsOf nsigma mfarg gfarg flux)).getD i false = false →
          (debadStep wave nsigma mfarg gfarg maskconv (flux, clip)).1.getD i 0
            = flux.getD i 0 := by
  have hdlen : (dilate maskconv (flagsOf nsigma mfarg gfarg flux)).length
      = wave.length := by
    rw [dilate_length, flagsOf_length, hwf]
    omega
  refine ⟨?_, ?_, ?_⟩
  · intro hguard hflags hne
    obtain ⟨p, ps, hz⟩ : ∃ p ps,
        (selectNot wave (dilate maskconv (flagsOf nsigma mfarg gfarg flux))).zip
            (selectNot flux (dilate maskconv (flagsOf nsigma mfarg gfarg flux)))
          = p :: ps := by
      rcases hzz : (selectNot wave (dilate maskconv (flagsOf nsigma mfarg gfarg flux))).zip
          (selectNot flux (dilate maskconv (flagsOf nsigma mfarg gfarg flux)))
        with - | ⟨p, ps⟩
      · exfalso
        apply hne
        have hwlen := selectNot_length_congr wave flux
          (dilate maskconv (flagsOf nsigma mfarg gfarg flux)) hwf
        have hlz := congrArg List.length hzz
        rw [List.length_zip] at hlz
        simp only [List.length_nil] at hlz
        apply List.length_eq_zero.1
        omega
      · exact ⟨p, ps, rfl⟩
    have hok : interpMasked wave flux (dilate maskconv (flagsOf nsigma mfarg gfarg flux))
        = Except.ok (wave.map (fun t => if t ≤ p.1 then p.2 else interpGo t p ps)) := by
      unfold interpMasked
      rw [hz]
    have hstep := debadStep_eq_of_ok wave nsigma mfarg gfarg maskconv (flux, clip) _ hok
    refine ⟨?_, ?_, ?_⟩
    · rw [debadLoop.eq_def]
      dsimp only
      rw [if_neg (by omega), if_neg hflags, hok, hstep]
    · rw [hok, hstep]
    · intro i hi
      rw [hstep]
      dsimp only
      unfold interp
      rw [hz]
      dsimp only
      rw [List.getD_eq_getElem wave 0 hi,
        List.getD_eq_getElem _ _ (by rw [List.length_map]; exact hi),
        List.getElem_map]
  · intro hguard hflags hemp
    have herr := interpMasked_of_empty_anchors wave flux
      (dilate maskconv (flagsOf nsigma mfarg gfarg flux)) hemp
    rw [debadLoop.eq_def]
    dsimp only
    rw [if_neg (by omega), if_neg hflags, herr]
  · intro i hi hdi
    rcases hI : interpMasked wave flux (dilate maskconv (flagsOf nsigma mfarg gfarg flux))
      with e | l
    · rw [debadStep_eq_of_error wave nsigma mfarg gfarg maskconv (flux, clip) e hI]
    · rw [debadStep_eq_of_ok wave nsigma mfarg gfarg maskconv (flux, clip) l hI]
      dsimp only
      exact interpMasked_ok_keep wave flux
        (dilate maskconv (flagsOf nsigma mfarg gfarg flux)) l hI hwf hdlen hsort i hi hdi

/-- Witness for C5 (amended) on the concrete spectrum `exflux` (strictly
increasing `wave5`, `maskconv = 1 ≤ 5`). -/
theorem c5_dilate_and_interpolate_witness :
    (wave5.Pairwise (· < ·) ∧ wave5.length = exflux.length ∧ 1 ≤ exflux.length)
      ∧ ((2 * countTrue (orMask (List.replicate 5 false)
            (flagsOf ((1 : ℝ) / 2, 4) 3 (1, 1) exflux)) ≤ 5 →
          countTrue (flagsOf ((1 : ℝ) / 2, 4) 3 (1, 1) exflux) ≠ 0 →
          selectNot wave5 (dilate 1 (flagsOf ((1 : ℝ) / 2, 4) 3 (1, 1) exflux)) ≠ [] →
          debadLoop wave5 ((1 : ℝ) / 2, 4) 3 (1, 1) 1 5 (1 + 1)
              (exflux, List.replicate 5 false)
            = debadLoop wave5 ((1 : ℝ) / 2, 4) 3 (1, 1) 1 5 1
                (debadStep wave5 ((1 : ℝ) / 2, 4) 3 (1, 1) 1
                  (exflux, List.replicate 5 false))
          ∧ interpMasked wave5 exflux (dilate 1 (flagsOf ((1 : ℝ) / 2, 4) 3 (1, 1) exflux))
            = Except.ok ((debadStep wave5 ((1 : ℝ) / 2, 4) 3 (1, 1) 1
                (exflux, List.replicate 5 false)).1)
          ∧ ∀ i < wave5.length,
              interp (wave5.getD i 0)
                  (selectNot wave5 (dilate 1 (flagsOf ((1 : ℝ) / 2, 4) 3 (1, 1) exflux)))
                  (selectNot exflux (dilate 1 (flagsOf ((1 : ℝ) / 2, 4) 3 (1, 1) exflux)))
                = Except.ok ((debadStep wave5 ((1 : ℝ) / 2, 4) 3 (1, 1) 1
                    (exflux, List.replicate 5 false)).1.getD i 0))
        ∧ (2 * countTrue (orMask (List.replicate 5 false)
              (flagsOf ((1 : ℝ) / 2, 4) 3 (1, 1) exflux)) ≤ 5 →
            countTrue (flagsOf ((1 : ℝ) / 2, 4) 3 (1, 1) exflux) ≠ 0 →
            selectNot wave5 (dilate 1 (flagsOf ((1 : ℝ) / 2, 4) 3 (1, 1) exflux)) = [] →
            debadLoop wave5 ((1 : ℝ) / 2, 4) 3 (1, 1) 1 5 (1 + 1)
                (exflux, List.replicate 5 false)
              = Except.error "array of sample points is empty")
        ∧ ∀ i < wave5.length,
            (dilate 1 (flagsOf ((1 : ℝ) / 2, 4) 3 (1, 1) exflux)).getD i false = false →
            (debadStep wave5 ((1 : ℝ) / 2, 4) 3 (1, 1) 1
                (exflux, List.replicate 5 false)).1.getD i 0
              = exflux.getD i 0) := by
  have hsort : wave5.Pairwise (· < ·) := by
    simp [wave5, List.pairwise_cons]
    norm_num
  have hwf : wave5.length = exflux.length := by simp [wave5, exflux]
  have hmc : 1 ≤ exflux.length := by simp [exflux]
  exact ⟨⟨hsort, hwf, hmc⟩,
    c5_dilate_and_interpolate wave5 exflux (List.replicate 5 false)
      ((1 : ℝ) / 2, 4) 3 (1, 1) 1 5 1 hsort hwf hmc⟩

/-! Concrete evaluation on `flux7`: the empty-sample-points failure. -/

theorem medfilt_flux7 : medfilt flux7 3 = List.replicate 7 0 := by
  norm_num [medfilt, median, getZ, flux7, List.range_succ, List.insertionSort,
    List.orderedInsert, List.getD, List.replicate, int_toNat_two, int_toNat_three,
    int_toNat_four, int_toNat_five, int_toNat_six, int_toNat_seven, int_toNat_eight]

theorem trend_flux7 : trendOf 3 flux7 = List.replicate 7 0 := by
  rw [trendOf, medfilt_flux7, convSame_replicate_zero, gaussNorm_length,
    show (7 : ℕ) ⊔ 5 = 7 from by norm_num]

theorem res_flux7 : resOf 3 flux7 = flux7 := by
  rw [resOf, trend_flux7]
  exact zipWith_sub_replicate_zero flux7 7 (by simp [flux7])

theorem sigma_flux7 : sigmaOf (1, 1) 3 flux7 = [0, 0, 0, 1, 0, 0, 0] := by
  rw [sigmaOf, res_flux7]
  show convSame (flux7.map (fun x => |x|)) (gaussNorm 1 1) = [0, 0, 0, 1, 0, 0, 0]
  rw [gaussNorm_one, convSame_single _ (by simp [flux7])]
  norm_num [flux7]

theorem flags_flux7 :
    flagsOf ((1 : ℝ) / 2, 4) 3 (1, 1) flux7
      = [false, false, false, true, false, false, false] := by
  rw [flagsOf, res_flux7, sigma_flux7]
  norm_num [flux7, List.zipWith, decide_eq_true_eq]

theorem dilate_flux7 :
    dilate 7 [false, false, false, true, false, false, false]
      = List.replicate 7 true := by
  norm_num [dilate, convSame, fullConvAt, List.range_succ, Finset.sum_range_succ,
    List.getD_cons_zero, List.getD_cons_succ, List.replicate, decide_eq_true_eq]

theorem selectNot_replicate_true {α : Type} : ∀ a : List α,
    selectNot a (List.replicate a.length true) = [] := by
  intro a
  induction a with
  | nil => rfl
  | cons x a ih =>
      rw [List.length_cons, List.replicate_succ, selectNot_cons_true, ih]

theorem selectNot_wave7_all : selectNot wave7 (List.replicate 7 true) = [] := by
  have h := selectNot_replicate_true wave7
  rwa [show wave7.length = 7 from by simp [wave7]] at h

theorem debad_flux7_error :
    debad wave7 flux7 ((1 : ℝ) / 2, 4) 3 (1, 1) 7 3
      = Except.error "array of sample points is empty" := by
  rw [debad]
  rw [show flux7.length = 7 from by simp [flux7]]
  rw [show (3 : ℕ) - 1 = 1 + 1 from rfl]
  apply debadLoop_succ_interp_error
  · rw [orMask_false_left _ _ (by rw [flagsOf_length]; simp [flux7]), flags_flux7]
    decide
  · rw [flags_flux7]
    decide
  · rw [flags_flux7, dilate_flux7]
    exact interpMasked_of_empty_anchors wave7 flux7 _ selectNot_wave7_all

/-- C3 counterexample: on `flux7` with `maxiter = 3 ≥ 1` the over-clipping
guard never fires (the call does not raise "Too many bad pixels!"), yet
`debad` does not terminate with a flux: round 1 flags pixel 3, the width-7
dilation covers all 7 pixels, and the replacement's `np.interp` aborts the
whole call with its empty-sample-points error. -/
theorem c3_crash_counterexample :
    debad wave7 flux7 ((1 : ℝ) / 2, 4) 3 (1, 1) 7 3
        = Except.error "array of sample points is empty"
      ∧ debad wave7 flux7 ((1 : ℝ) / 2, 4) 3 (1, 1) 7 3
          ≠ Except.error "Too many bad pixels!"
      ∧ (1 : ℕ) ≤ 3 := by
  refine ⟨debad_flux7_error, ?_, by norm_num⟩
  rw [debad_flux7_error]
  intro h
  rw [Except.error.injEq] at h
  exact absurd h (by decide)

/-- C5 counterexample: round 1 on `flux7` flags a new outlier (pixel 3), the
iteration cap 3 is not reached, and the cumulative mask stays far below 50%
of the 7 pixels, yet no pixel is replaced by interpolation: the width-7
boxcar dilation of the single flag covers every pixel, so `wave[~indout]`
is empty and the call aborts inside the replacement step instead. -/
theorem c5_allmask_counterexample :
    countTrue (flagsOf ((1 : ℝ) / 2, 4) 3 (1, 1) flux7) ≠ 0
      ∧ 2 * countTrue (orMask (List.replicate 7 false)
          (flagsOf ((1 : ℝ) / 2, 4) 3 (1, 1) flux7)) ≤ 7
      ∧ selectNot wave7 (dilate 7 (flagsOf ((1 : ℝ) / 2, 4) 3 (1, 1) flux7)) = []
      ∧ debad wave7 flux7 ((1 : ℝ) / 2, 4) 3 (1, 1) 7 3
          = Except.error "array of sample points is empty" := by
  refine ⟨?_, ?_, ?_, debad_flux7_error⟩
  · rw [flags_flux7]
    decide
  · rw [orMask_false_left _ _ (by rw [flagsOf_length]; simp [flux7]), flags_flux7]
    decide
  · rw [flags_flux7, dilate_flux7]
    exact selectNot_wave7_all

end Laspec
